import Mathlib

/-!
Shallow embedding of the bosun search/indexing engine (package
`bosun.org/cmd/bosun/search`, file `src/cmd/bosun/database/search_data.go`,
third part: the `search` package) together with the slice of the redis-backed
store access contract it uses.  Machine integers (`int64` timestamps) are
modelled as `Int`; `float64` values are modelled as `ℚ`, keeping the exact
arithmetic expressions the source computes; fallible calls return `Except`.
-/

deriving instance DecidableEq for Except

namespace BosunSearch

/-! ## String ordering and sorting

Go's `sort.Strings` sorts byte-wise ascending; we model it as lexicographic
order on the character sequence (identical on the ASCII data appearing here).
`sort.Strings` itself is Go stdlib, not part of the repository: only the
ordering ("sorted ascending") matters to the spec.
-/

/-- Lexicographic comparison of character lists by code point, non-strict. -/
def strLeList : List Char → List Char → Bool
  | [], _ => true
  | _ :: _, [] => false
  | a :: as, b :: bs =>
    if a.toNat < b.toNat then true
    else if b.toNat < a.toNat then false
    else strLeList as bs

/-- Lexicographic string comparison, the order `sort.Strings` sorts by. -/
def strLe (a b : String) : Bool := strLeList a.data b.data

/-- Ascending sort of a string list, as `sort.Strings` produces. -/
def sortStrings (l : List String) : List String :=
  l.insertionSort (fun a b => strLe a b = true)

/-! ## Go string helpers

`strings.Split`, `strings.TrimSpace`, `strings.Contains` and `strings.Join`
are Go stdlib, modelled here directly on the character lists.
-/

/-- Model of `strings.Split(s, sep)` for a one-character separator. -/
def splitOnChar (sep : Char) : List Char → List (List Char)
  | [] => [[]]
  | c :: cs =>
    let r := splitOnChar sep cs
    if c = sep then [] :: r
    else
      match r with
      | [] => [[c]]
      | h :: t => (c :: h) :: t

/-- Model of `strings.TrimSpace`: drop whitespace from both ends. -/
def trimSpace (s : List Char) : List Char :=
  ((s.dropWhile Char.isWhitespace).reverse.dropWhile Char.isWhitespace).reverse

/-- Split a string on the `|` separator, as `strings.Split(ov, "|")`. -/
def splitPipe (s : String) : List String :=
  (splitOnChar '|' s.data).map (fun l => String.mk l)

/-- Trim a string, as `strings.TrimSpace`. -/
def trimStr (s : String) : String := String.mk (trimSpace s.data)

/-- Test for a `*` character, as `strings.Contains(v, "*")`. -/
def containsStar (s : String) : Bool := s.data.any (fun c => c == '*')

/-- Model of `strings.Join(l, sep)`. -/
def joinSep (sep : String) : List String → String
  | [] => ""
  | [x] => x
  | x :: y :: t => x ++ sep ++ joinSep sep (y :: t)

/-! ## Data model -/

/-- Value of a data point.  The source takes `interface{}` and coerces through
reflection (`getFloat`, lines 191-199): the only distinction it makes is
numeric-convertible (giving a `float64`, modelled as `ℚ`) or not. -/
inductive Value where
  | num (v : ℚ)
  | nonNum (description : String)
deriving DecidableEq

/-- Embedding of `getFloat` (lines 191-199): a numeric-convertible value
yields its number, anything else the conversion error. -/
def getFloat : Value → Except String ℚ
  | .num v => .ok v
  | .nonNum d => .error ("cannot convert " ++ d ++ " to float64")

/-- A single OpenTSDB data point as `Index` consumes it. -/
structure DataPoint where
  metric : String
  tags : List (String × String)
  value : Value
  timestamp : Int
deriving DecidableEq

/-- Modelled from the spec: `opentsdb.TagSet.String()` (the `opentsdb` package
is not under `src/`) — the canonical tag-set serialization: tag pairs sorted
by key, rendered `\x7bk=v,k2=v2\x7d`.  Two equal tag mappings always produce
the same string. -/
def tagsString (tags : List (String × String)) : String :=
  "\x7b" ++
    joinSep ","
      ((tags.insertionSort (fun p q => strLe p.1 q.1 = true)).map
        (fun p => p.1 ++ "=" ++ p.2)) ++
  "\x7d"

/-- Series key of a point: `metric + dp.Tags.String()` (line 148). -/
def seriesKey (dp : DataPoint) : String := dp.metric ++ tagsString dp.tags

/-- Last-value cache entry (`lastInfo`, lines 128-132).  A fresh entry is
`&lastInfo\x7b\x7d`, i.e. all fields zero. -/
structure lastInfo where
  lastVal : ℚ
  diffFromPrev : ℚ
  timestamp : Int
deriving DecidableEq

/-- The zero `lastInfo` created on first observation of a key (line 172). -/
def newLastInfo : lastInfo := { lastVal := 0, diffFromPrev := 0, timestamp := 0 }

/-- Reserved sentinel metric meaning "across all metrics"
(`database.Search_All`, declared in the database package). -/
def Search_All : String := "__all__"

/-- One write against the store access contract, as issued on lines 161-165. -/
inductive StoreWrite where
  | addMetricForTag (tagK tagV metric : String) (time : Int)
  | addTagKeyForMetric (metric tagK : String) (time : Int)
  | addTagValue (metric tagK tagV : String) (time : Int)
  | addMetric (metric : String) (time : Int)
deriving DecidableEq

/-- The five store writes the tag loop body issues for one `(k, v)` pair
(lines 160-166). -/
def writesForTag (metric : String) (now : Int) (kv : String × String) : List StoreWrite :=
  [ .addMetricForTag kv.1 kv.2 metric now,
    .addTagKeyForMetric metric kv.1 now,
    .addTagValue metric kv.1 kv.2 now,
    .addTagValue Search_All kv.1 kv.2 now,
    .addMetric metric now ]

/-- All store writes issued for one point when the throttle fired: the tag
loop of lines 160-166.  Note every write, `Search_AddMetric` included, sits
inside the `for k, v := range dp.Tags` loop. -/
def writesForPoint (dp : DataPoint) (now : Int) : List StoreWrite :=
  (dp.tags.map (writesForTag dp.metric now)).flatten

/-- In-process state of the `Search` engine: the throttle map `updateTimes`
and the last-value cache `Last` (lines 120-126). -/
structure IndexState where
  updateTimes : String → Option Int
  last : String → Option lastInfo

/-- Throttle check of lines 151-154: fire when no record exists or the
record's age exceeds ten minutes. -/
def needUpdate (s : IndexState) (now : Int) (key : String) : Bool :=
  match s.updateTimes key with
  | none => true
  | some lastUpdate => now - lastUpdate > 10 * 60

/-- Record `now` as the throttle timestamp of `key` (line 158). -/
def setUpdateTime (s : IndexState) (key : String) (now : Int) : IndexState :=
  { s with updateTimes := fun k => if k = key then some now else s.updateTimes k }

/-- Store `p` as the last-value cache entry of `key` (lines 170-173). -/
def setLast (s : IndexState) (key : String) (p : lastInfo) : IndexState :=
  { s with last := fun k => if k = key then some p else s.last k }

/-- Last-value update of lines 175-183: only a strictly newer timestamp
touches the entry; a numeric value updates `diffFromPrev` and `lastVal`;
the timestamp is overwritten outside the `getFloat` success branch, so it
advances even for a non-numeric value (which is merely logged). -/
def updateLast (p : lastInfo) (dp : DataPoint) : lastInfo :=
  if p.timestamp < dp.timestamp then
    match getFloat dp.value with
    | .ok fv =>
      { lastVal := fv
        diffFromPrev := (fv - p.lastVal) / ((dp.timestamp - p.timestamp : Int) : ℚ)
        timestamp := dp.timestamp }
    | .error _ => { p with timestamp := dp.timestamp }
  else p

/-- Processing of one data point inside `Index` (lines 146-185): throttle
check, throttled store writes, unthrottled last-value update.  Returns the
new engine state and the store writes issued for this point. -/
def indexPoint (s : IndexState) (now : Int) (dp : DataPoint) : IndexState × List StoreWrite :=
  let key := seriesKey dp
  let upd := needUpdate s now key
  let s1 := if upd then setUpdateTime s key now else s
  let writes := if upd then writesForPoint dp now else []
  let p := (s1.last key).getD newLastInfo
  (setLast s1 key (updateLast p dp), writes)

/-- The whole batch loop of `Index`: `now` is read once (line 144) and shared
by every point of the batch. -/
def indexBatch (s : IndexState) (now : Int) (mdp : List DataPoint) :
    IndexState × List StoreWrite :=
  mdp.foldl (fun acc dp =>
    let r := indexPoint acc.1 now dp
    (r.1, acc.2 ++ r.2)) (s, [])

/-- What one `Index` call leaves behind and hands back. -/
structure IndexOutcome where
  state : IndexState
  writes : List StoreWrite
  returnedError : Option String

/-- Embedding of `Index` (lines 143-187).  The Go signature is
`func (s *Search) Index(mdp opentsdb.MultiDataPoint)`: it has no return value,
and the error results of the five store calls on lines 161-165 are discarded
(none is assigned), so the caller receives no error — `returnedError` is
`none` whatever the store does. -/
def Index (s : IndexState) (now : Int) (mdp : List DataPoint) : IndexOutcome :=
  { state := (indexBatch s now mdp).1
    writes := (indexBatch s now mdp).2
    returnedError := none }

/-- The writes of a batch that a given store behaviour would fail. -/
def failedWrites (store : StoreWrite → Except String Unit) (ws : List StoreWrite) :
    List StoreWrite :=
  ws.filter (fun w => match store w with | .error _ => true | .ok _ => false)

/-! ## Lookup API

The read side of the store access contract: each `Search_Get*` call returns a
Go `map[string]int64` — modelled as an association list whose keys are the
hash fields (distinct in a hash) — or a store error.
-/

/-- Read side of the store access contract used by the lookup operations. -/
structure DataAccess where
  getMetricsForTag : String → String → Except String (List (String × Int))
  getTagKeysForMetric : String → Except String (List (String × Int))
  getTagValues : String → String → Except String (List (String × Int))
  getAllMetrics : Except String (List (String × Int))

/-- Embedding of `UniqueMetrics` (lines 266-279): all keys of the global
metric registry, sorted. -/
def UniqueMetrics (d : DataAccess) : Except String (List String) :=
  match d.getAllMetrics with
  | .error e => .error e
  | .ok m => .ok (sortStrings (m.map Prod.fst))

/-- Embedding of `MetricsByTagPair` (lines 285-296). -/
def MetricsByTagPair (d : DataAccess) (tagK tagV : String) : Except String (List String) :=
  match d.getMetricsForTag tagK tagV with
  | .error e => .error e
  | .ok m => .ok (sortStrings (m.map Prod.fst))

/-- Embedding of `TagKeysByMetric` (lines 298-309). -/
def TagKeysByMetric (d : DataAccess) (metric : String) : Except String (List String) :=
  match d.getTagKeysForMetric metric with
  | .error e => .error e
  | .ok m => .ok (sortStrings (m.map Prod.fst))

/-- Embedding of `TagValuesByMetricTagKey` (lines 311-328): keep the values
whose last-seen timestamp `ts` satisfies `t ≤ ts`, where `t` is
`now − since` for a positive `since` and `0` otherwise, then sort. -/
def TagValuesByMetricTagKey (d : DataAccess) (now : Int) (metric tagK : String)
    (since : Int) : Except String (List String) :=
  let t : Int := if since > 0 then now - since else 0
  match d.getTagValues metric tagK with
  | .error e => .error e
  | .ok vals => .ok (sortStrings ((vals.filter (fun p => t ≤ p.2)).map Prod.fst))

/-- Embedding of `TagValuesByTagKey` (lines 281-283): the same under the
all-metrics sentinel. -/
def TagValuesByTagKey (d : DataAccess) (now : Int) (tagK : String) (since : Int) :
    Except String (List String) :=
  TagValuesByMetricTagKey d now Search_All tagK since

/-! ## Pattern matching (`Match`)

`Match` (lines 204-219) rewrites the search string — `.` becomes the escaped
literal `\.`, `*` becomes `.*` — anchors it with `^`/`$` and hands it to
`regexp.Compile`.  The regexp engine is Go stdlib, not part of the
repository; its behaviour on the translated patterns is modelled from the
spec: literal `.` is escaped, `*` matches any sequence, the whole pattern
must match the entire candidate.  Under that translation every element is a
literal character or a star, so the translated pattern is always
syntactically valid and the compile-error branch (lines 208-211) is never
taken in the model.
-/

/-- One element of a translated pattern: a literal character or `*`. -/
inductive GlobElem where
  | lit (c : Char)
  | star
deriving DecidableEq

/-- Modelled from the spec: translation of the search string performed on
lines 205-207 — `.` escaped to a literal, `*` to "match any sequence",
everything else literal, the whole anchored. -/
def translate (s : String) : List GlobElem :=
  s.data.map (fun c => if c = '*' then GlobElem.star else GlobElem.lit c)

/-- Anchored matcher for translated patterns: a literal must equal the next
character and a star consumes any suffix split. -/
def globMatch : List GlobElem → List Char → Bool
  | [], s => s.isEmpty
  | .lit _ :: _, [] => false
  | .lit c :: ps, d :: ds => (c == d) && globMatch ps ds
  | .star :: ps, s => s.tails.any (fun t => globMatch ps t)

/-- Declarative full-match semantics of a translated pattern: the empty
pattern matches the empty string, a literal consumes exactly itself, a star
consumes an arbitrary sequence. -/
inductive GlobSem : List GlobElem → List Char → Prop where
  | nil : GlobSem [] []
  | lit (c : Char) {ps : List GlobElem} {cs : List Char} :
      GlobSem ps cs → GlobSem (.lit c :: ps) (c :: cs)
  | star (pre : List Char) {ps : List GlobElem} {cs : List Char} :
      GlobSem ps cs → GlobSem (.star :: ps) (pre ++ cs)

/-- Embedding of `Match` (lines 204-219): keep the candidates the translated,
anchored pattern fully matches.  The `Except` error channel mirrors the
compile-error path, unreachable under the modelled translation. -/
def Match (search : String) (values : List String) : Except String (List String) :=
  let pat := translate search
  .ok (values.filter (fun v => globMatch pat v.data))

/-! ## Query expansion (`Expand`) -/

/-- A query as `Expand` sees it: one metric and a tag filter mapping. -/
structure Query where
  metric : String
  tags : List (String × String)
deriving DecidableEq

/-- Failure of `Expand` (lines 239-264): a propagated store error, a
propagated pattern-compile error, or the empty-expansion error
`fmt.Errorf("expr: no tags matching %s=%s", k, ov)` carrying the tag key and
the original expression. -/
inductive ExpandError where
  | storeError (e : String)
  | patternError (e : String)
  | expansionError (tagK expr : String)
deriving DecidableEq

/-- Resolution of one `|`-alternative (lines 243-256): trim; `*` or a
star-free alternative passes through literally; otherwise match it against
the recorded tag values of the query's metric and this tag key. -/
def resolveAlt (d : DataAccess) (now : Int) (metric tagK : String) (v0 : String) :
    Except ExpandError (List String) :=
  let v := trimStr v0
  if v = "*" ∨ containsStar v = false then .ok [v]
  else
    match TagValuesByMetricTagKey d now metric tagK 0 with
    | .error e => .error (.storeError e)
    | .ok vs =>
      match Match v vs with
      | .error e => .error (.patternError e)
      | .ok ns => .ok ns

/-- The alternatives of one tag key resolved in order and unioned
(appended), the first failure aborting (lines 241-257). -/
def resolveAlts (d : DataAccess) (now : Int) (metric tagK : String) :
    List String → Except ExpandError (List String)
  | [] => .ok []
  | v :: rest =>
    match resolveAlt d now metric tagK v with
    | .error e => .error e
    | .ok cur =>
      match resolveAlts d now metric tagK rest with
      | .error e => .error e
      | .ok more => .ok (cur ++ more)

/-- The tag-by-tag body of `Expand` (lines 240-262): resolve each tag key's
expression; an empty union fails with the expansion error, otherwise the
resolved values replace the expression, re-joined with `|`. -/
def expandTags (d : DataAccess) (now : Int) (metric : String) :
    List (String × String) → Except ExpandError (List (String × String))
  | [] => .ok []
  | (k, ov) :: rest =>
    match resolveAlts d now metric k (splitPipe ov) with
    | .error e => .error e
    | .ok nvs =>
      if nvs.isEmpty then .error (.expansionError k ov)
      else
        match expandTags d now metric rest with
        | .error e => .error e
        | .ok rest2 => .ok ((k, joinSep "|" nvs) :: rest2)

/-- Embedding of `Expand` (lines 239-264): rewrite every tag filter of the
query, or fail. -/
def Expand (d : DataAccess) (now : Int) (q : Query) : Except ExpandError Query :=
  match expandTags d now q.metric q.tags with
  | .error e => .error e
  | .ok tags2 => .ok { q with tags := tags2 }

/-! ## Concrete fixtures used by witnesses and counterexamples -/

/-- A fresh engine: both maps empty, as `NewSearch` builds it. -/
def emptyState : IndexState := { updateTimes := fun _ => none, last := fun _ => none }

/-- A one-tag numeric point. -/
def dpA : DataPoint := { metric := "m", tags := [("h", "a")], value := .num 1, timestamp := 1 }

/-- A later numeric point of the same series. -/
def dpB : DataPoint := { metric := "m", tags := [("h", "a")], value := .num 3, timestamp := 2 }

/-- A later point of the same series whose value is not numeric-convertible. -/
def dpNoNum : DataPoint :=
  { metric := "m", tags := [("h", "a")], value := .nonNum "string", timestamp := 2 }

/-- A point with an empty tag mapping. -/
def dpNoTags : DataPoint := { metric := "m", tags := [], value := .num 1, timestamp := 1 }

/-- A third, still later numeric point of the same series. -/
def dpC : DataPoint := { metric := "m", tags := [("h", "a")], value := .num 5, timestamp := 3 }

/-- An engine holding a last-value entry for `dpA`'s series key. -/
def cachedState : IndexState :=
  { updateTimes := fun _ => none
    last := fun k => if k = seriesKey dpA then some ⟨1, 1, 1⟩ else none }

/-- An engine whose throttle record for `dpA`'s series key is at time 100. -/
def throttledState : IndexState :=
  { updateTimes := fun k => if k = seriesKey dpA then some 100 else none
    last := fun _ => none }

/-! ## Basic characterizations of `indexPoint` -/

/-- Throttle does not fire within the window. -/
theorem needUpdate_false_of_recent {s : IndexState} {now : Int} {key : String} {t : Int}
    (h : s.updateTimes key = some t) (h2 : now - t ≤ 10 * 60) :
    needUpdate s now key = false := by
  simp [needUpdate, h]
  omega

/-- Throttle fires once the record's age exceeds the window. -/
theorem needUpdate_true_of_old {s : IndexState} {now : Int} {key : String} {t : Int}
    (h : s.updateTimes key = some t) (h2 : 10 * 60 < now - t) :
    needUpdate s now key = true := by
  simp [needUpdate, h]
  omega

/-- A non-empty tag mapping yields at least one store write. -/
theorem writesForPoint_ne_nil {dp : DataPoint} (now : Int) (h : dp.tags ≠ []) :
    writesForPoint dp now ≠ [] := by
  cases htags : dp.tags with
  | nil => exact absurd htags h
  | cons kv rest => simp [writesForPoint, htags, writesForTag]

/-- The writes issued for one point are those of the tag loop when the
throttle fired, and none otherwise. -/
theorem indexPoint_writes (s : IndexState) (now : Int) (dp : DataPoint) :
    (indexPoint s now dp).2 =
      if needUpdate s now (seriesKey dp) = true then writesForPoint dp now else [] := rfl

/-- How one point changes the throttle map. -/
theorem indexPoint_updateTimes (s : IndexState) (now : Int) (dp : DataPoint) (k : String) :
    (indexPoint s now dp).1.updateTimes k =
      if needUpdate s now (seriesKey dp) = true then
        (if k = seriesKey dp then some now else s.updateTimes k)
      else s.updateTimes k := by
  by_cases h : needUpdate s now (seriesKey dp) = true <;>
    simp [indexPoint, setLast, setUpdateTime, h]

/-- How one point changes the last-value cache. -/
theorem indexPoint_last (s : IndexState) (now : Int) (dp : DataPoint) (k : String) :
    (indexPoint s now dp).1.last k =
      if k = seriesKey dp then
        some (updateLast ((s.last (seriesKey dp)).getD newLastInfo) dp)
      else s.last k := by
  by_cases h : needUpdate s now (seriesKey dp) = true <;>
    simp [indexPoint, setLast, setUpdateTime, h]

/-- A strictly newer point always advances the entry's timestamp, numeric
value or not (line 182 sits outside the `getFloat` branch). -/
theorem updateLast_timestamp_of_lt {p : lastInfo} {d : DataPoint}
    (ht : p.timestamp < d.timestamp) : (updateLast p d).timestamp = d.timestamp := by
  unfold updateLast
  rw [if_pos ht]
  cases getFloat d.value <;> simp

/-- The entry a strictly newer numeric point produces. -/
theorem updateLast_ok {p : lastInfo} {d : DataPoint} {v : ℚ}
    (ht : p.timestamp < d.timestamp) (hv : getFloat d.value = .ok v) :
    updateLast p d =
      { lastVal := v
        diffFromPrev := (v - p.lastVal) / ((d.timestamp - p.timestamp : Int) : ℚ)
        timestamp := d.timestamp } := by
  unfold updateLast
  rw [if_pos ht, hv]

/-- A point not strictly newer than the entry leaves it untouched. -/
theorem updateLast_of_ge {p : lastInfo} {d : DataPoint}
    (ht : ¬ p.timestamp < d.timestamp) : updateLast p d = p := by
  unfold updateLast
  rw [if_neg ht]

/-! ## Claims -/

/-- C1: within the ten-minute throttle window a point of an already-throttled
series issues no store writes and leaves the throttle map untouched; once the
record's age exceeds the window, the next point of that series (with a
non-empty tag mapping) issues writes again and re-stamps the throttle record;
and after a write fired, a second point of the same series within the window
issues nothing. -/
theorem Index_throttle_window (s : IndexState) (now : Int) (dp : DataPoint) :
    (∀ t, s.updateTimes (seriesKey dp) = some t → now - t ≤ 10 * 60 →
        (indexPoint s now dp).2 = [] ∧
        (indexPoint s now dp).1.updateTimes = s.updateTimes)
    ∧ (∀ t, s.updateTimes (seriesKey dp) = some t → 10 * 60 < now - t → dp.tags ≠ [] →
        (indexPoint s now dp).2 ≠ [] ∧
        (indexPoint s now dp).1.updateTimes (seriesKey dp) = some now)
    ∧ (∀ now2 dp2, seriesKey dp2 = seriesKey dp → dp.tags ≠ [] →
        needUpdate s now (seriesKey dp) = true → now2 - now ≤ 10 * 60 →
        (indexPoint s now dp).2 ≠ [] ∧
        (indexPoint (indexPoint s now dp).1 now2 dp2).2 = []) := by
  refine ⟨?_, ?_, ?_⟩
  · intro t ht hwin
    have h := needUpdate_false_of_recent ht hwin
    constructor
    · rw [indexPoint_writes, h]
      simp
    · simp [indexPoint, setLast, setUpdateTime, h]
  · intro t ht hwin htags
    have h := needUpdate_true_of_old ht hwin
    constructor
    · rw [indexPoint_writes, h]
      simpa using writesForPoint_ne_nil now htags
    · rw [indexPoint_updateTimes, h]
      simp
  · intro now2 dp2 hkey htags h hwin
    constructor
    · rw [indexPoint_writes, h]
      simpa using writesForPoint_ne_nil now htags
    · have hstamp : (indexPoint s now dp).1.updateTimes (seriesKey dp2) = some now := by
        rw [indexPoint_updateTimes, h, hkey]
        simp
      have h2 := needUpdate_false_of_recent hstamp hwin
      rw [indexPoint_writes, h2]
      simp

/-- C1 witness: concrete runs of the three conjuncts — a call 300 seconds
after the stamp writes nothing; a call 901 seconds after writes again; after
a fresh write, a call 100 seconds later writes nothing. -/
theorem Index_throttle_window_witness :
    (indexPoint throttledState 400 dpA).2 = [] ∧
    (indexPoint throttledState 1001 dpA).2 ≠ [] ∧
    (indexPoint (indexPoint emptyState 100 dpA).1 200 dpA).2 = [] :=
  ⟨((Index_throttle_window throttledState 400 dpA).1 100 (by decide) (by decide)).1,
   ((Index_throttle_window throttledState 1001 dpA).2.1 100 (by decide) (by decide)
      (by decide)).1,
   ((Index_throttle_window emptyState 100 dpA).2.2 200 dpA rfl (by decide) (by decide)
      (by decide)).2⟩

/-- C9: a point with an empty tag mapping issues no store writes at all —
the whole tag loop, the global `Search_AddMetric` registration included, is
skipped — while the throttle timestamp of its series key is still recorded
whenever the throttle check fired. -/
theorem Index_empty_tags_no_writes (s : IndexState) (now : Int) (dp : DataPoint)
    (h : dp.tags = []) :
    (indexPoint s now dp).2 = [] ∧
    (needUpdate s now (seriesKey dp) = true →
      (indexPoint s now dp).1.updateTimes (seriesKey dp) = some now) := by
  constructor
  · rw [indexPoint_writes]
    by_cases hu : needUpdate s now (seriesKey dp) = true <;>
      simp [hu, writesForPoint, h]
  · intro hu
    rw [indexPoint_updateTimes, hu]
    simp

/-- C9 witness: a concrete tagless point on a fresh engine — the throttle
fires, the timestamp is recorded, and still no write is issued. -/
theorem Index_empty_tags_no_writes_witness :
    (indexPoint emptyState 100 dpNoTags).2 = [] ∧
    (indexPoint emptyState 100 dpNoTags).1.updateTimes (seriesKey dpNoTags) = some 100 :=
  ⟨(Index_empty_tags_no_writes emptyState 100 dpNoTags rfl).1,
   (Index_empty_tags_no_writes emptyState 100 dpNoTags rfl).2 (by decide)⟩

/-- C10: the division computing `diffFromPrev` (line 177) only runs under the
strict monotonicity guard of line 175, so its denominator
`dp.Timestamp - p.timestamp` is strictly positive — in particular never
zero — and the computed rate is exactly the guarded quotient. -/
theorem Index_diff_denominator_pos (p : lastInfo) (dp : DataPoint) (fv : ℚ)
    (hv : getFloat dp.value = .ok fv) (ht : p.timestamp < dp.timestamp) :
    0 < dp.timestamp - p.timestamp ∧
    ((dp.timestamp - p.timestamp : Int) : ℚ) ≠ 0 ∧
    (updateLast p dp).diffFromPrev =
      (fv - p.lastVal) / ((dp.timestamp - p.timestamp : Int) : ℚ) := by
  refine ⟨by omega, ?_, ?_⟩
  · have h0 : (0 : Int) < dp.timestamp - p.timestamp := by omega
    exact_mod_cast ne_of_gt h0
  · simp [updateLast, ht, hv]

/-- C10 witness: the guard and the positive denominator at a concrete cache
entry and point. -/
theorem Index_diff_denominator_pos_witness :
    0 < dpB.timestamp - newLastInfo.timestamp ∧
    ((dpB.timestamp - newLastInfo.timestamp : Int) : ℚ) ≠ 0 ∧
    (updateLast newLastInfo dpB).diffFromPrev =
      ((3 : ℚ) - newLastInfo.lastVal) /
        ((dpB.timestamp - newLastInfo.timestamp : Int) : ℚ) :=
  Index_diff_denominator_pos newLastInfo dpB 3 rfl (by decide)

/-- C7: two points of one fresh series with numeric values `v1`, `v2` and
timestamps `t1 < t2`, applied in that order, leave the cached rate exactly
`(v2 − v1) / (t2 − t1)` — the very expression of line 177. -/
theorem Index_diffFromPrev (s : IndexState) (now1 now2 : Int) (dp1 dp2 : DataPoint)
    (v1 v2 : ℚ)
    (hkey : seriesKey dp2 = seriesKey dp1)
    (hnone : s.last (seriesKey dp1) = none)
    (hv1 : getFloat dp1.value = .ok v1) (hv2 : getFloat dp2.value = .ok v2)
    (ht0 : 0 < dp1.timestamp) (ht : dp1.timestamp < dp2.timestamp) :
    ∃ p, (indexPoint (indexPoint s now1 dp1).1 now2 dp2).1.last (seriesKey dp1) = some p ∧
      p.lastVal = v2 ∧ p.timestamp = dp2.timestamp ∧
      p.diffFromPrev = (v2 - v1) / ((dp2.timestamp - dp1.timestamp : Int) : ℚ) := by
  have h1 : (indexPoint s now1 dp1).1.last (seriesKey dp1) =
      some (updateLast newLastInfo dp1) := by
    rw [indexPoint_last]
    simp [hnone]
  have e1 : updateLast newLastInfo dp1 =
      { lastVal := v1
        diffFromPrev := (v1 - 0) / ((dp1.timestamp - 0 : Int) : ℚ)
        timestamp := dp1.timestamp } := by
    simp [updateLast, newLastInfo, hv1, ht0]
  refine ⟨updateLast (updateLast newLastInfo dp1) dp2, ?_, ?_⟩
  · rw [indexPoint_last, hkey, if_pos rfl, h1]
    rfl
  · rw [e1]
    simp only [updateLast]
    rw [if_pos (by simpa using ht), hv2]
    exact ⟨rfl, rfl, rfl⟩

/-- C7 witness: values 1 then 3 at timestamps 1 then 2 give rate
`(3 − 1) / (2 − 1)`. -/
theorem Index_diffFromPrev_witness :
    ∃ p, (indexPoint (indexPoint emptyState 100 dpA).1 100 dpB).1.last (seriesKey dpA) =
        some p ∧
      p.lastVal = 3 ∧ p.timestamp = dpB.timestamp ∧
      p.diffFromPrev = ((3 : ℚ) - 1) / ((dpB.timestamp - dpA.timestamp : Int) : ℚ) :=
  Index_diffFromPrev emptyState 100 100 dpA dpB 1 3 rfl rfl rfl rfl (by decide) (by decide)

/-- C2 counterexample: under a store that fails every write, a fresh point
makes `Index` issue writes — all of which fail — while the call still hands
no error whatsoever back to its caller, because the Go signature
`func (s *Search) Index(mdp opentsdb.MultiDataPoint)` returns nothing and the
error results of lines 161-165 are discarded. -/
theorem Index_swallows_store_errors_cex :
    failedWrites (fun _ => .error "store down") (Index emptyState 100 [dpA]).writes ≠ [] ∧
    (Index emptyState 100 [dpA]).returnedError = none := by
  exact ⟨by decide, rfl⟩

/-- C2 amended: `Index` never surfaces a store error — even when some of the
writes it issued fail under the store's behaviour, the caller receives no
error. -/
theorem Index_never_surfaces_store_errors (store : StoreWrite → Except String Unit)
    (s : IndexState) (now : Int) (mdp : List DataPoint)
    (h : failedWrites store (Index s now mdp).writes ≠ []) :
    (Index s now mdp).returnedError = none := rfl

/-- C2 witness: the amended theorem applied to the failing store and the
fresh point. -/
theorem Index_never_surfaces_store_errors_witness :
    failedWrites (fun _ => .error "down") (Index emptyState 200 [dpA]).writes ≠ [] ∧
    (Index emptyState 200 [dpA]).returnedError = none :=
  ⟨by decide,
   Index_never_surfaces_store_errors (fun _ => .error "down") emptyState 200 [dpA]
     (by decide)⟩

/-- C4 counterexample: a later point with a non-numeric value does change
the cache entry — line 182 sits outside the `getFloat` success branch, so
the entry's timestamp advances from 1 to 2 even though the value conversion
failed. -/
theorem Index_non_numeric_cex :
    (indexPoint (indexPoint emptyState 100 dpA).1 100 dpNoNum).1.last (seriesKey dpA) ≠
      (indexPoint emptyState 100 dpA).1.last (seriesKey dpA) := by
  have hA : (indexPoint emptyState 100 dpA).1.last (seriesKey dpA) =
      some (updateLast newLastInfo dpA) := by
    rw [indexPoint_last, if_pos rfl]
    rfl
  have hk : seriesKey dpNoNum = seriesKey dpA := by decide
  have hN : (indexPoint (indexPoint emptyState 100 dpA).1 100 dpNoNum).1.last (seriesKey dpA) =
      some (updateLast (updateLast newLastInfo dpA) dpNoNum) := by
    rw [indexPoint_last, hk, if_pos rfl, hA]
    rfl
  have t1 : (updateLast newLastInfo dpA).timestamp = dpA.timestamp :=
    updateLast_timestamp_of_lt (by decide)
  have t2 : (updateLast (updateLast newLastInfo dpA) dpNoNum).timestamp = dpNoNum.timestamp :=
    updateLast_timestamp_of_lt (by rw [t1]; decide)
  intro h
  rw [hN, hA] at h
  have hts := congrArg (fun o => (Option.getD o newLastInfo).timestamp) h
  simp only [Option.getD_some] at hts
  rw [t1, t2] at hts
  exact absurd hts (by decide)

/-- C4 amended: a non-numeric value with a strictly newer timestamp skips
the `lastVal`/`diffFromPrev` update — both keep their cached values — but
still advances the entry's timestamp to the point's; and the store writes of
the point are independent of its value, so they proceed as for any value. -/
theorem Index_non_numeric_skips_value_update (s : IndexState) (now : Int)
    (dp : DataPoint) (e : String) (p : lastInfo)
    (hv : getFloat dp.value = .error e)
    (hp : s.last (seriesKey dp) = some p) (ht : p.timestamp < dp.timestamp) :
    (indexPoint s now dp).1.last (seriesKey dp) =
      some { p with timestamp := dp.timestamp } ∧
    ∀ w : Value, (indexPoint s now { dp with value := w }).2 = (indexPoint s now dp).2 := by
  constructor
  · rw [indexPoint_last, if_pos rfl, hp]
    simp [updateLast, ht, hv]
  · intro w
    rfl

/-- C4 witness: the non-numeric point applied on top of a cached entry
`⟨1, 1, 1⟩` keeps value and rate, advances the timestamp to 2, and issues
exactly the writes a numeric point would. -/
theorem Index_non_numeric_skips_value_update_witness :
    (indexPoint cachedState 100 dpNoNum).1.last (seriesKey dpNoNum) =
      some { lastVal := 1, diffFromPrev := 1, timestamp := dpNoNum.timestamp } ∧
    ∀ w : Value,
      (indexPoint cachedState 100 { dpNoNum with value := w }).2 =
        (indexPoint cachedState 100 dpNoNum).2 :=
  Index_non_numeric_skips_value_update cachedState 100 dpNoNum
    "cannot convert string to float64" ⟨1, 1, 1⟩ rfl (by decide) (by decide)

/-- C3 counterexample: from a fresh engine, applying the two numeric points
(value 1 at time 1, value 3 at time 2) in the two orders leaves different
cache entries — ascending order gives `diffFromPrev = 2`, descending order
gives `diffFromPrev = 3/2` — so the full entry state is not
order-insensitive. -/
theorem Index_order_insensitivity_cex :
    (indexPoint (indexPoint emptyState 100 dpA).1 100 dpB).1.last (seriesKey dpA) ≠
      (indexPoint (indexPoint emptyState 100 dpB).1 100 dpA).1.last (seriesKey dpA) := by
  have hk : seriesKey dpB = seriesKey dpA := by decide
  have hA : (indexPoint emptyState 100 dpA).1.last (seriesKey dpA) =
      some (updateLast newLastInfo dpA) := by
    rw [indexPoint_last, if_pos rfl]
    rfl
  have hB : (indexPoint emptyState 100 dpB).1.last (seriesKey dpA) =
      some (updateLast newLastInfo dpB) := by
    rw [indexPoint_last, hk, if_pos rfl]
    rfl
  have h1 : (indexPoint (indexPoint emptyState 100 dpA).1 100 dpB).1.last (seriesKey dpA) =
      some (updateLast (updateLast newLastInfo dpA) dpB) := by
    rw [indexPoint_last, hk, if_pos rfl, hA]
    rfl
  have h2 : (indexPoint (indexPoint emptyState 100 dpB).1 100 dpA).1.last (seriesKey dpA) =
      some (updateLast (updateLast newLastInfo dpB) dpA) := by
    rw [indexPoint_last, if_pos rfl, hB]
    rfl
  have eA : updateLast newLastInfo dpA = (⟨1, 1, 1⟩ : lastInfo) := by
    rw [updateLast_ok (p := newLastInfo) (d := dpA) (v := 1) (by decide) rfl]
    norm_num [newLastInfo, dpA]
  have eB : updateLast newLastInfo dpB = (⟨3, 3 / 2, 2⟩ : lastInfo) := by
    rw [updateLast_ok (p := newLastInfo) (d := dpB) (v := 3) (by decide) rfl]
    norm_num [newLastInfo, dpB]
  have e1 : updateLast (updateLast newLastInfo dpA) dpB = (⟨3, 2, 2⟩ : lastInfo) := by
    rw [eA, updateLast_ok (p := (⟨1, 1, 1⟩ : lastInfo)) (d := dpB) (v := 3) (by decide) rfl]
    norm_num [dpB]
  have e2 : updateLast (updateLast newLastInfo dpB) dpA = (⟨3, 3 / 2, 2⟩ : lastInfo) := by
    rw [eB, updateLast_of_ge (by decide)]
  rw [h1, h2, e1, e2]
  simp only [ne_eq, Option.some.injEq, lastInfo.mk.injEq]
  intro h
  norm_num at h

/-- C3 amended: applying two points of one series with `t1 < t2` in either
order leaves the entry with `lastVal = v2` and `lastTimestamp = t2` — the
`t2` point is the most recent observation — though `diffFromPrev` may differ
between the orders; and a point whose timestamp is at most the cached
entry's timestamp leaves the whole last-value cache unchanged. -/
theorem Index_last_value_monotonic (s : IndexState) (now1 now2 : Int)
    (dp1 dp2 : DataPoint) (v2 : ℚ)
    (hkey : seriesKey dp2 = seriesKey dp1)
    (hv2 : getFloat dp2.value = .ok v2)
    (hcached : ((s.last (seriesKey dp1)).getD newLastInfo).timestamp < dp1.timestamp)
    (ht : dp1.timestamp < dp2.timestamp) :
    (∃ p, (indexPoint (indexPoint s now1 dp1).1 now2 dp2).1.last (seriesKey dp1) = some p ∧
        p.lastVal = v2 ∧ p.timestamp = dp2.timestamp) ∧
    (∃ p, (indexPoint (indexPoint s now1 dp2).1 now2 dp1).1.last (seriesKey dp1) = some p ∧
        p.lastVal = v2 ∧ p.timestamp = dp2.timestamp) ∧
    (∀ dp3 q, seriesKey dp3 = seriesKey dp1 → s.last (seriesKey dp1) = some q →
        dp3.timestamp ≤ q.timestamp →
        (indexPoint s now1 dp3).1.last = s.last) := by
  refine ⟨?_, ?_, ?_⟩
  · -- ascending order: dp1 then dp2
    have h1 : (indexPoint s now1 dp1).1.last (seriesKey dp1) =
        some (updateLast ((s.last (seriesKey dp1)).getD newLastInfo) dp1) := by
      rw [indexPoint_last, if_pos rfl]
    have hts1 : (updateLast ((s.last (seriesKey dp1)).getD newLastInfo) dp1).timestamp =
        dp1.timestamp := updateLast_timestamp_of_lt hcached
    have e1 := updateLast_ok (p := updateLast ((s.last (seriesKey dp1)).getD newLastInfo) dp1)
      (by rw [hts1]; exact ht) hv2
    refine ⟨updateLast (updateLast ((s.last (seriesKey dp1)).getD newLastInfo) dp1) dp2,
      ?_, ?_, ?_⟩
    · rw [indexPoint_last, hkey, if_pos rfl, h1]
      rfl
    · rw [e1]
    · rw [e1]
  · -- descending order: dp2 then dp1
    have hc2 : ((s.last (seriesKey dp1)).getD newLastInfo).timestamp < dp2.timestamp :=
      lt_trans hcached ht
    have h2 : (indexPoint s now1 dp2).1.last (seriesKey dp1) =
        some (updateLast ((s.last (seriesKey dp1)).getD newLastInfo) dp2) := by
      rw [indexPoint_last, hkey, if_pos rfl]
    have e2 := updateLast_ok (p := (s.last (seriesKey dp1)).getD newLastInfo) hc2 hv2
    refine ⟨updateLast ((s.last (seriesKey dp1)).getD newLastInfo) dp2, ?_, ?_, ?_⟩
    · rw [indexPoint_last, if_pos rfl, h2]
      have hge : ¬ ((updateLast ((s.last (seriesKey dp1)).getD newLastInfo) dp2).timestamp <
          dp1.timestamp) := by
        rw [updateLast_timestamp_of_lt hc2]
        omega
      simp only [Option.getD_some]
      rw [updateLast_of_ge hge]
    · rw [e2]
    · rw [e2]
  · -- a point not strictly newer than the cached entry changes nothing
    intro dp3 q hk3 hq hle
    funext k
    rw [indexPoint_last]
    by_cases hkk : k = seriesKey dp3
    · rw [if_pos hkk, hk3, hq, Option.getD_some, updateLast_of_ge (by omega), hkk, hk3, hq]
    · rw [if_neg hkk]

/-- Empty pattern semantics: only the empty string matches. -/
theorem globSem_nil_iff (s : List Char) : GlobSem [] s ↔ s = [] := by
  constructor
  · intro h
    cases h
    rfl
  · rintro rfl
    exact GlobSem.nil

/-- The executable matcher agrees with the declarative full-match
semantics of translated patterns. -/
theorem globMatch_iff : ∀ (p : List GlobElem) (s : List Char),
    globMatch p s = true ↔ GlobSem p s := by
  intro p
  induction p with
  | nil =>
    intro s
    rw [globSem_nil_iff]
    cases s <;> simp [globMatch]
  | cons e ps ih =>
    intro s
    cases e with
    | lit c =>
      cases s with
      | nil =>
        simp only [globMatch]
        constructor
        · intro h
          simp at h
        · intro h
          cases h
      | cons d ds =>
        simp only [globMatch, Bool.and_eq_true, beq_iff_eq]
        constructor
        · rintro ⟨rfl, hm⟩
          exact GlobSem.lit c ((ih ds).mp hm)
        · intro h
          cases h with
          | lit _ h2 => exact ⟨rfl, (ih ds).mpr h2⟩
    | star =>
      simp only [globMatch, List.any_eq_true]
      constructor
      · rintro ⟨t, ht, hm⟩
        rw [List.mem_tails] at ht
        obtain ⟨pre, rfl⟩ := ht
        exact GlobSem.star pre ((ih t).mp hm)
      · intro h
        cases h with
        | star pre h2 =>
          exact ⟨_, (List.mem_tails _ _).mpr ⟨pre, rfl⟩, (ih _).mpr h2⟩

/-- A lone star matches every string. -/
theorem globMatch_star_all (s : List Char) : globMatch [GlobElem.star] s = true := by
  simp only [globMatch, List.any_eq_true]
  exact ⟨[], (List.mem_tails _ _).mpr (List.nil_suffix), rfl⟩

/-- C6: `Match` succeeds with exactly the subsequence of the candidates whose
entire string satisfies the translated pattern — literal characters (a `.`
among them) match themselves, `*` matches any sequence — and the spec's three
examples hold; under the modelled translation the compiled pattern is always
syntactically valid, so the pattern-error branch never fires. -/
theorem Match_spec (search : String) (values : List String) :
    (∃ l, Match search values = .ok l ∧ l.Sublist values ∧
        ∀ v, v ∈ l ↔ v ∈ values ∧ GlobSem (translate search) v.data) ∧
    Match "host*" ["host1", "host2", "db1"] = .ok ["host1", "host2"] ∧
    (∀ vs, Match "*" vs = .ok vs) ∧
    Match "a.b" ["a.b", "axb"] = .ok ["a.b"] := by
  refine ⟨⟨values.filter (fun v => globMatch (translate search) v.data), rfl,
      List.filter_sublist _, ?_⟩, by decide, ?_, by decide⟩
  · intro v
    rw [List.mem_filter]
    simp [globMatch_iff]
  · intro vs
    simp only [Match]
    have ht : translate "*" = [GlobElem.star] := rfl
    rw [ht]
    congr 1
    rw [List.filter_eq_self]
    intro a _
    exact globMatch_star_all a.data

/-- C3 witness: on the engine caching `⟨1, 1, 1⟩`, points at times 2 and 3
in either order end with value 5 at time 3, and the time-1 point changes
nothing. -/
theorem Index_last_value_monotonic_witness :
    (∃ p, (indexPoint (indexPoint cachedState 100 dpB).1 100 dpC).1.last (seriesKey dpB) =
        some p ∧ p.lastVal = 5 ∧ p.timestamp = dpC.timestamp) ∧
    (∃ p, (indexPoint (indexPoint cachedState 100 dpC).1 100 dpB).1.last (seriesKey dpB) =
        some p ∧ p.lastVal = 5 ∧ p.timestamp = dpC.timestamp) ∧
    (indexPoint cachedState 100 dpA).1.last = cachedState.last := by
  have h := Index_last_value_monotonic cachedState 100 100 dpB dpC 5 (by decide) rfl
    (by decide) (by decide)
  exact ⟨h.1, h.2.1, h.2.2 dpA ⟨1, 1, 1⟩ (by decide) (by decide) (by decide)⟩

/-! ## Sortedness of the lookup results -/

/-- Head comparison of a successful list comparison. -/
theorem strLeList_cons_elim {a b : Char} {as bs : List Char}
    (h : strLeList (a :: as) (b :: bs) = true) :
    a.toNat < b.toNat ∨ (a.toNat = b.toNat ∧ strLeList as bs = true) := by
  by_cases h1 : a.toNat < b.toNat
  · exact Or.inl h1
  · by_cases h2 : b.toNat < a.toNat
    · simp only [strLeList, if_neg h1, if_pos h2] at h
      cases h
    · simp only [strLeList, if_neg h1, if_neg h2] at h
      exact Or.inr ⟨by omega, h⟩

/-- Construction of a list comparison from its head comparison. -/
theorem strLeList_cons_intro {a b : Char} {as bs : List Char}
    (h : a.toNat < b.toNat ∨ (a.toNat = b.toNat ∧ strLeList as bs = true)) :
    strLeList (a :: as) (b :: bs) = true := by
  rcases h with h | ⟨he, hrec⟩
  · simp only [strLeList, if_pos h]
  · simp only [strLeList, if_neg (by omega : ¬ a.toNat < b.toNat),
      if_neg (by omega : ¬ b.toNat < a.toNat)]
    exact hrec

/-- The string order is total. -/
theorem strLeList_total : ∀ as bs : List Char,
    strLeList as bs = true ∨ strLeList bs as = true := by
  intro as
  induction as with
  | nil => intro bs; exact Or.inl rfl
  | cons a as ih =>
    intro bs
    cases bs with
    | nil => exact Or.inr rfl
    | cons b bs =>
      by_cases h1 : a.toNat < b.toNat
      · exact Or.inl (strLeList_cons_intro (Or.inl h1))
      · by_cases h2 : b.toNat < a.toNat
        · exact Or.inr (strLeList_cons_intro (Or.inl h2))
        · rcases ih bs with h | h
          · exact Or.inl (strLeList_cons_intro (Or.inr ⟨by omega, h⟩))
          · exact Or.inr (strLeList_cons_intro (Or.inr ⟨by omega, h⟩))

/-- The string order is transitive. -/
theorem strLeList_trans : ∀ as bs cs : List Char,
    strLeList as bs = true → strLeList bs cs = true → strLeList as cs = true := by
  intro as
  induction as with
  | nil => intro bs cs _ _; rfl
  | cons a as ih =>
    intro bs cs hab hbc
    cases bs with
    | nil => cases hab
    | cons b bs =>
      cases cs with
      | nil => cases hbc
      | cons c cs =>
        rcases strLeList_cons_elim hab with h | ⟨he1, hr1⟩ <;>
          rcases strLeList_cons_elim hbc with h2 | ⟨he2, hr2⟩
        · exact strLeList_cons_intro (Or.inl (by omega))
        · exact strLeList_cons_intro (Or.inl (by omega))
        · exact strLeList_cons_intro (Or.inl (by omega))
        · exact strLeList_cons_intro (Or.inr ⟨by omega, ih bs cs hr1 hr2⟩)

instance : IsTotal String (fun a b => strLe a b = true) :=
  ⟨fun a b => strLeList_total a.data b.data⟩

instance : IsTrans String (fun a b => strLe a b = true) :=
  ⟨fun a b c => strLeList_trans a.data b.data c.data⟩

/-- The sort used by every lookup yields a sorted list. -/
theorem sortStrings_sorted (l : List String) :
    (sortStrings l).Sorted (fun a b => strLe a b = true) :=
  List.sorted_insertionSort _ l

/-- The sort is a permutation of its input. -/
theorem sortStrings_perm (l : List String) : (sortStrings l).Perm l :=
  List.perm_insertionSort _ l

/-- Sorting a duplicate-free list keeps it duplicate-free. -/
theorem sortStrings_nodup {l : List String} (h : l.Nodup) : (sortStrings l).Nodup :=
  ((sortStrings_perm l).nodup_iff).mpr h

/-- Keys of a filtered hash stay duplicate-free. -/
theorem nodup_keys_filter {vals : List (String × Int)} (h : (vals.map Prod.fst).Nodup)
    (q : (String × Int) → Bool) : ((vals.filter q).map Prod.fst).Nodup :=
  ((List.filter_sublist vals).map Prod.fst).nodup h

/-- C8: every list-returning lookup — `UniqueMetrics`, `MetricsByTagPair`,
`TagKeysByMetric`, `TagValuesByMetricTagKey` and `TagValuesByTagKey` —
returns its result sorted ascending and without duplicates, whenever the
backing store hash has distinct fields (as redis hashes do). -/
theorem Lookups_sorted_nodup (d : DataAccess) (now : Int) :
    (∀ m l, d.getAllMetrics = .ok m → (m.map Prod.fst).Nodup →
      UniqueMetrics d = .ok l →
      l.Sorted (fun a b => strLe a b = true) ∧ l.Nodup) ∧
    (∀ tagK tagV m l, d.getMetricsForTag tagK tagV = .ok m → (m.map Prod.fst).Nodup →
      MetricsByTagPair d tagK tagV = .ok l →
      l.Sorted (fun a b => strLe a b = true) ∧ l.Nodup) ∧
    (∀ metric m l, d.getTagKeysForMetric metric = .ok m → (m.map Prod.fst).Nodup →
      TagKeysByMetric d metric = .ok l →
      l.Sorted (fun a b => strLe a b = true) ∧ l.Nodup) ∧
    (∀ metric tagK since m l, d.getTagValues metric tagK = .ok m →
      (m.map Prod.fst).Nodup →
      TagValuesByMetricTagKey d now metric tagK since = .ok l →
      l.Sorted (fun a b => strLe a b = true) ∧ l.Nodup) ∧
    (∀ tagK since m l, d.getTagValues Search_All tagK = .ok m →
      (m.map Prod.fst).Nodup →
      TagValuesByTagKey d now tagK since = .ok l →
      l.Sorted (fun a b => strLe a b = true) ∧ l.Nodup) := by
  refine ⟨?_, ?_, ?_, ?_, ?_⟩
  · intro m l hm hnd hl
    simp only [UniqueMetrics, hm, Except.ok.injEq] at hl
    subst hl
    exact ⟨sortStrings_sorted _, sortStrings_nodup hnd⟩
  · intro tagK tagV m l hm hnd hl
    simp only [MetricsByTagPair, hm, Except.ok.injEq] at hl
    subst hl
    exact ⟨sortStrings_sorted _, sortStrings_nodup hnd⟩
  · intro metric m l hm hnd hl
    simp only [TagKeysByMetric, hm, Except.ok.injEq] at hl
    subst hl
    exact ⟨sortStrings_sorted _, sortStrings_nodup hnd⟩
  · intro metric tagK since m l hm hnd hl
    simp only [TagValuesByMetricTagKey, hm, Except.ok.injEq] at hl
    subst hl
    exact ⟨sortStrings_sorted _, sortStrings_nodup (nodup_keys_filter hnd _)⟩
  · intro tagK since m l hm hnd hl
    simp only [TagValuesByTagKey, TagValuesByMetricTagKey, hm, Except.ok.injEq] at hl
    subst hl
    exact ⟨sortStrings_sorted _, sortStrings_nodup (nodup_keys_filter hnd _)⟩

/-- A concrete read-side store: four tag values, two metrics, one tag key. -/
def storeFixture : DataAccess :=
  { getMetricsForTag := fun _ _ => .ok [("m1", 5), ("m2", 3)]
    getTagKeysForMetric := fun _ => .ok [("h", 5)]
    getTagValues := fun _ _ => .ok [("web2", 1), ("db1", 2), ("web1", 3), ("db2", 4)]
    getAllMetrics := .ok [("b", 1), ("a", 2)] }

/-- C8 witness: the five lookups on the concrete store, all sorted and
duplicate-free. -/
theorem Lookups_sorted_nodup_witness :
    ((["a", "b"] : List String).Sorted (fun a b => strLe a b = true) ∧
      (["a", "b"] : List String).Nodup) ∧
    ((["m1", "m2"] : List String).Sorted (fun a b => strLe a b = true) ∧
      (["m1", "m2"] : List String).Nodup) ∧
    ((["h"] : List String).Sorted (fun a b => strLe a b = true) ∧
      (["h"] : List String).Nodup) ∧
    ((["db1", "db2", "web1", "web2"] : List String).Sorted
        (fun a b => strLe a b = true) ∧
      (["db1", "db2", "web1", "web2"] : List String).Nodup) ∧
    ((["db1", "db2", "web1"] : List String).Sorted (fun a b => strLe a b = true) ∧
      (["db1", "db2", "web1"] : List String).Nodup) :=
  ⟨(Lookups_sorted_nodup storeFixture 100).1 [("b", 1), ("a", 2)] ["a", "b"]
      rfl (by decide) (by decide),
   (Lookups_sorted_nodup storeFixture 100).2.1 "h" "x" [("m1", 5), ("m2", 3)]
      ["m1", "m2"] rfl (by decide) (by decide),
   (Lookups_sorted_nodup storeFixture 100).2.2.1 "m" [("h", 5)] ["h"]
      rfl (by decide) (by decide),
   (Lookups_sorted_nodup storeFixture 100).2.2.2.1 "m" "h" 0
      [("web2", 1), ("db1", 2), ("web1", 3), ("db2", 4)]
      ["db1", "db2", "web1", "web2"] rfl (by decide) (by decide),
   (Lookups_sorted_nodup storeFixture 100).2.2.2.2 "h" 98
      [("web2", 1), ("db1", 2), ("web1", 3), ("db2", 4)]
      ["db1", "db2", "web1"] rfl (by decide) (by decide)⟩

/-! ## Expansion failure on empty unions -/

/-- A successful `expandTags` run never passed an empty union: every tag key
of the input resolved to a non-empty value list. -/
theorem expandTags_ok_no_empty {d : DataAccess} {now : Int} {metric : String} :
    ∀ tags r, expandTags d now metric tags = .ok r →
      ∀ kv ∈ tags, resolveAlts d now metric kv.1 (splitPipe kv.2) ≠ .ok [] := by
  intro tags
  induction tags with
  | nil =>
    intro r _ kv hkv
    cases hkv
  | cons hd tl ih =>
    intro r h kv hkv
    obtain ⟨k, ov⟩ := hd
    simp only [expandTags] at h
    cases hra : resolveAlts d now metric k (splitPipe ov) with
    | error e =>
      simp only [hra] at h
      simp at h
    | ok nvs =>
      simp only [hra] at h
      by_cases hemp : nvs.isEmpty
      · rw [if_pos hemp] at h
        cases h
      · rw [if_neg hemp] at h
        cases hkv with
        | head =>
          intro hcon
          rw [hra] at hcon
          simp only [Except.ok.injEq] at hcon
          subst hcon
          exact hemp rfl
        | tail _ hmem =>
          cases hrest : expandTags d now metric tl with
          | error e =>
            simp only [hrest] at h
            simp at h
          | ok r2 => exact ih r2 hrest kv hmem

/-- When every earlier tag key resolves to a non-empty union and one tag
key's union is empty, `expandTags` fails with the expansion error naming
that key and its original expression. -/
theorem expandTags_first_empty_fails {d : DataAccess} {now : Int} {metric : String} :
    ∀ (pre : List (String × String)) (k ov : String) (post : List (String × String)),
      (∀ kv ∈ pre, ∃ l, resolveAlts d now metric kv.1 (splitPipe kv.2) = .ok l ∧ l ≠ []) →
      resolveAlts d now metric k (splitPipe ov) = .ok [] →
      expandTags d now metric (pre ++ (k, ov) :: post) =
        .error (.expansionError k ov) := by
  intro pre
  induction pre with
  | nil =>
    intro k ov post _ hempty
    simp only [List.nil_append, expandTags, hempty]
    rfl
  | cons hd tl ih =>
    intro k ov post hpre hempty
    obtain ⟨k1, ov1⟩ := hd
    obtain ⟨l1, hl1, hne1⟩ := hpre (k1, ov1) (List.mem_cons_self _ _)
    simp only [List.cons_append, expandTags, hl1, List.append_eq]
    rw [if_neg (by simpa [List.isEmpty_iff] using hne1)]
    rw [ih k ov post (fun kv hkv => hpre kv (List.mem_cons_of_mem _ hkv)) hempty]

/-- C5: an empty union is never silently substituted — a query `Expand`
accepts had a non-empty union for every tag key, and when the first failing
tag key has an empty union, the whole call fails with the expansion error
naming that key and its original expression. -/
theorem Expand_empty_union_fails (d : DataAccess) (now : Int) (q : Query) :
    (∀ r, Expand d now q = .ok r →
      ∀ kv ∈ q.tags, resolveAlts d now q.metric kv.1 (splitPipe kv.2) ≠ .ok []) ∧
    (∀ pre k ov post, q.tags = pre ++ (k, ov) :: post →
      (∀ kv ∈ pre, ∃ l, resolveAlts d now q.metric kv.1 (splitPipe kv.2) = .ok l ∧
        l ≠ []) →
      resolveAlts d now q.metric k (splitPipe ov) = .ok [] →
      Expand d now q = .error (.expansionError k ov)) := by
  constructor
  · intro r hr kv hkv
    cases hexp : expandTags d now q.metric q.tags with
    | error e =>
      simp only [Expand, hexp] at hr
      simp at hr
    | ok tags2 => exact expandTags_ok_no_empty q.tags tags2 hexp kv hkv
  · intro pre k ov post htags hpre hempty
    simp only [Expand, htags, expandTags_first_empty_fails pre k ov post hpre hempty]

/-- C5 witness: on the concrete store, the accepted query
`{host: "web*|db1"}` resolved through a non-empty union, and
`{host: "zzz*"}` — whose one alternative matches no recorded value —
fails with the expansion error naming `host` and `zzz*`. -/
theorem Expand_empty_union_fails_witness :
    resolveAlts storeFixture 100 "m" "host" (splitPipe "web*|db1") ≠ .ok [] ∧
    Expand storeFixture 100 ⟨"m", [("host", "zzz*")]⟩ =
      .error (.expansionError "host" "zzz*") :=
  ⟨(Expand_empty_union_fails storeFixture 100 ⟨"m", [("host", "web*|db1")]⟩).1
      ⟨"m", [("host", "web1|web2|db1")]⟩ (by decide) ("host", "web*|db1") (by decide),
   (Expand_empty_union_fails storeFixture 100 ⟨"m", [("host", "zzz*")]⟩).2
      [] "host" "zzz*" [] rfl (by simp) (by decide)⟩

end BosunSearch
